import Mathlib

/-
Verification development for the FandomScraper repository (src/scraper.ts plus the
per-wiki schema files).  The TypeScript class is shallowly embedded: jsdom documents
are modelled as explicit data (listing pages as their element collections, character
pages as their script texts, class-indexed image sources and data-source rows), the
network is an explicit environment mapping URLs to fetched documents (a `none`
result is a failed fetch, i.e. a thrown fetch error), and thrown JS exceptions are
`Except` errors.  JS numbers used for the limit/offset bookkeeping are modelled as
`Int`; JS string falsiness (null/undefined/empty) is the `falsy` predicate on
`Option String`.
-/

deriving instance DecidableEq for Except

namespace FandomScraper

/-- JS `String.prototype.toLowerCase`, modelled per character (the source lowers
both sides of the banned-substring comparison; ASCII lowering is enough for the
model). -/
def strToLower (s : String) : String := String.mk (s.toList.map Char.toLower)

/-- A DOM element of the character listing, reduced to the two features the scraper
reads: its `href` attribute (`getAttribute` returns null when absent) and its
`textContent` (a string, empty when there is no text). -/
structure Element where
  href : Option String
  text : String
deriving Repr, DecidableEq

/-- One listing page: the collection returned by
`getElementsByClassName(listCharactersElement.value)` in document order, and the
first element matching the pagination "next" locator, when present. -/
structure ListingPage where
  entries : List Element
  next : Option Element
deriving Repr, DecidableEq

/-- A character page, reduced to what `_getAllClassic` and `parseCharacterPage`
read from it: the text of its script tags in document order, the `src` attributes
of the elements of each class name (`getElementsByClassName`), and for each
`data-source` attribute value the text of the first `pi-data-value` descendant of
the first matching element (`none` when the element has no such descendant). -/
structure CharPage where
  scripts : List String
  classSrcs : List (String × List (Option String))
  dataSrc : List (String × Option String)
deriving Repr, DecidableEq

/-- The options of `getAll` (interface IGetCharactersOptions).  JS numbers are
modelled as integers. -/
structure Options where
  limit : Int
  offset : Int
  recursive : Bool
  base64 : Bool
  withId : Bool
deriving Repr, DecidableEq

/-- Default options of `getAll`:
`{ offset: 0, limit: 100000, recursive: false, base64: true, withId: true }`. -/
def defaultOptions : Options :=
  { limit := 100000, offset := 0, recursive := false, base64 := true, withId := true }

/-- Extracted field values: ordinary text fields hold a cleaned string, the
`images` field holds a list of image strings. -/
inductive FieldValue where
  | str : String → FieldValue
  | images : List String → FieldValue
deriving Repr, DecidableEq

/-- A JS object used as a string-keyed mapping, in insertion order. -/
abbrev Obj : Type := List (String × FieldValue)

/-- An output record (interface IData): `id` is present only when `withId` is set,
`data` is `none` when it was set to `undefined` (non-recursive runs). -/
structure IData where
  id : Option Nat
  url : String
  name : String
  data : Option Obj
deriving Repr, DecidableEq

/-- Thrown exceptions of the scraper, one constructor per `throw` site (plus the
image-conversion rethrow). -/
inductive ScrapeError where
  | invalidLimit
  | invalidOffset
  | offsetGreaterThanLimit
  | noUrl
  | noName
  | fetchFail (url : String)
  | imageFail (url : String)
deriving Repr, DecidableEq

/-- The network collaborators: `fetchChar` maps the href of a listing entry to the
character document it fetches (the `new URL(url, schema.url).href` resolution is
absorbed into the mapping), `none` modelling a fetch that throws.  `imageB64` is
`convertImageToBase64`, `none` modelling a fetch/convert failure (which that
method rethrows). -/
structure Env where
  fetchChar : String → Option CharPage
  imageB64 : String → Option String

/-- JS falsiness of a nullable string: null/undefined or the empty string. -/
def falsy (s : Option String) : Bool := decide (s.getD "" = "")

/-- First-match association lookup (JS property access on the modelled maps). -/
def alookup {α : Type} : List (String × α) → String → Option α
  | [], _ => none
  | (k, v) :: rest, key => if k = key then some v else alookup rest key

/-- Prefix test on character lists (String.prototype.startsWith shape, used to
implement `includes`). -/
def listStartsWith : List Char → List Char → Bool
  | _, [] => true
  | [], _ :: _ => false
  | a :: as, b :: bs => decide (a = b) && listStartsWith as bs

/-- Substring containment on character lists. -/
def listHasSub : List Char → List Char → Bool
  | [], sub => sub.isEmpty
  | a :: as, sub => listStartsWith (a :: as) sub || listHasSub as sub

/-- JS `String.prototype.includes`. -/
def strIncludes (s sub : String) : Bool := listHasSub s.toList sub.toList

/-- Property assignment `obj[k] = v` on the modelled JS object: overwrite in
place, else append. -/
def objSet : Obj → String → FieldValue → Obj
  | [], k, v => [(k, v)]
  | (k0, v0) :: rest, k, v =>
    if k0 = k then (k, v) :: rest else (k0, v0) :: objSet rest k v

/-- Modelled from the spec: `removeBrackets` is imported from `src/func/parsing`,
which is not present under `src/`; per the spec it normalizes extracted text "by
stripping a defined set of bracketed annotations (e.g. footnote markers)".  We
strip every `[` ... `]` segment. -/
def rbAux : List Char → Bool → List Char
  | [], _ => []
  | c :: cs, inBracket =>
    if inBracket then
      if c = ']' then rbAux cs false else rbAux cs true
    else
      if c = '[' then rbAux cs true else c :: rbAux cs false

/-- Modelled from the spec: see `rbAux`. -/
def removeBrackets (s : String) : String := String.mk (rbAux s.toList false)

/-- Translation of `filterBannedElement`: keep the elements whose lower-cased
text contains none of the (lower-cased) banned substrings. -/
def filterBannedElement (elements : List Element) (banList : List String) : List Element :=
  elements.filter fun e =>
    !(banList.any fun sub => strIncludes (strToLower e.text) (strToLower sub))

/-- Leading digit run of a character list (the `\d+` part of the pageId regex). -/
def takeDigits : List Char → List Char
  | [] => []
  | c :: cs => if c.isDigit then c :: takeDigits cs else []

/-- Numeric value of a digit run (parseInt with radix 10 on a digit string). -/
def digitsVal : List Char → Nat → Nat
  | [], n => n
  | c :: cs, n => digitsVal cs (n * 10 + (c.toNat - Char.toNat '0'))

/-- The literal part of the regex `/"pageId":(\d+)/`. -/
def pageIdPat : List Char := String.toList "\"pageId\":"

/-- First match of the regex `/"pageId":(\d+)/` over a character list: at each
position the literal must be followed by at least one digit; the captured group is
the maximal digit run. -/
def findPageId : List Char → Option Nat
  | [] => none
  | c :: cs =>
    if listStartsWith (c :: cs) pageIdPat then
      let ds := takeDigits (List.drop pageIdPat.length (c :: cs))
      if ds.isEmpty then findPageId cs else some (digitsVal ds 0)
    else findPageId cs

/-- Translation of `extractPageId`: the first regex match parsed as a number,
0 when the pattern is absent. -/
def extractPageId (scriptContent : String) : Nat :=
  (findPageId scriptContent.toList).getD 0

/-- The id computation of `_getAllClassic`: find the first script whose text
contains the substring `pageId` and run `extractPageId` on it (on the empty
string when no script qualifies). -/
def pageIdOf (page : CharPage) : Nat :=
  extractPageId ((page.scripts.find? fun sc => strIncludes sc "pageId").getD "")

/-- Result of `getElementsByClassName` on a character page: the src attributes of
the matching elements (an absent class name is the empty collection). -/
def classLookup (page : CharPage) (c : String) : List (Option String) :=
  (alookup page.classSrcs c).getD []

/-- Image collection loop of the `images` branch of `parseCharacterPage`: a
falsy `src` is logged and skipped; with `base64` set each image is converted
(`convertImageToBase64` rethrows conversion failures), otherwise the raw src is
kept. -/
def collectImages (env : Env) (opts : Options) : List (Option String) → Except ScrapeError (List String)
  | [] => .ok []
  | src? :: rest =>
    if falsy src? then collectImages env opts rest
    else
      let src := src?.getD ""
      if opts.base64 then
        match env.imageB64 src with
        | none => .error (.imageFail src)
        | some b =>
          match collectImages env opts rest with
          | .error e => .error e
          | .ok bs => .ok (b :: bs)
      else
        match collectImages env opts rest with
        | .error e => .error e
        | .ok bs => .ok (src :: bs)

/-- Does the general (data-source) extraction of a locator find nothing usable on
a page: no element with the `data-source` attribute, no `pi-data-value`
descendant, or a falsy text. -/
def dsMiss (page : CharPage) (sk : String) : Bool :=
  match alookup page.dataSrc sk with
  | none => true
  | some none => true
  | some (some v) => decide (v = "")

/-- The `images` special case of one field iteration of `parseCharacterPage`:
when the key is `images`, collect the image values of the locator's class
(`getElementsByClassName` is never null, so the source's `if (!elements)` guard
never fires) and assign the list; any other key leaves the object unchanged at
this stage.  The source then falls through to the general extraction. -/
def parseFieldStep (env : Env) (opts : Options) (page : CharPage)
    (key sk : String) (acc : Obj) : Except ScrapeError Obj :=
  if key = "images" then
    match collectImages env opts (classLookup page sk) with
    | .error e => .error e
    | .ok imgs => .ok (objSet acc key (.images imgs))
  else .ok acc

/-- Field loop of `parseCharacterPage` over the remaining data-source entries,
`acc` being the object built so far.  Note the `images` branch of the source does
not end with an early continue: after assigning the image list it falls through
to the general `data-source` extraction, which can overwrite the key. -/
def parseFields (env : Env) (opts : Options) (page : CharPage) :
    List (String × Option String) → Obj → Except ScrapeError Obj
  | [], acc => .ok acc
  | (key, sk?) :: rest, acc =>
    if falsy sk? then parseFields env opts page rest acc
    else
      match parseFieldStep env opts page key (sk?.getD "") acc with
      | .error e => .error e
      | .ok acc1 =>
        match alookup page.dataSrc (sk?.getD "") with
        | none => parseFields env opts page rest acc1
        | some none => parseFields env opts page rest acc1
        | some (some v) =>
          if v = "" then parseFields env opts page rest acc1
          else parseFields env opts page rest (objSet acc1 key (.str (removeBrackets v)))

/-- Translation of `parseCharacterPage`: fold the field loop over the schema's
data-source map starting from the empty object. -/
def parseCharacterPage (env : Env) (opts : Options)
    (ds : List (String × Option String)) (page : CharPage) : Except ScrapeError Obj :=
  parseFields env opts page ds []

/-- The per-entry body of `_getAllClassic` once an entry is acted upon: check
href and text, fetch the character page, optionally parse it, optionally extract
the page id, and build the record (whose `data` is reset to undefined when the
run is not recursive). -/
def recordOf (env : Env) (ds : List (String × Option String)) (opts : Options)
    (e : Element) : Except ScrapeError IData :=
  if falsy e.href then .error .noUrl
  else if e.text = "" then .error .noName
  else
    let url := e.href.getD ""
    match env.fetchChar url with
    | none => .error (.fetchFail url)
    | some page =>
      match (if opts.recursive then parseCharacterPage env opts ds page else .ok [] :
              Except ScrapeError Obj) with
      | .error er => .error er
      | .ok characterData =>
        .ok { id := if opts.withId then some (pageIdOf page) else none
            , url := url
            , name := e.text
            , data := if opts.recursive then some characterData else none }

/-- State after the inner for-loop of `_getAllClassic` over one page's (already
filtered) elements: the running offset counter, the emitted count, the
accumulated records, and whether the loop returned early because the limit was
reached. -/
structure PEOut where
  off : Int
  cnt : Int
  acc : List IData
  early : Bool
deriving Repr, DecidableEq

/-- The inner for-loop of `_getAllClassic`: entries before the offset threshold
only advance the offset counter; an acted-upon entry yields a record; reaching
the limit returns immediately, mid-page. -/
def processEntries (env : Env) (ds : List (String × Option String)) (opts : Options) :
    List Element → Int → Int → List IData → Except ScrapeError PEOut
  | [], off, cnt, acc => .ok ⟨off, cnt, acc, false⟩
  | e :: rest, off, cnt, acc =>
    if opts.offset ≤ off then
      match recordOf env ds opts e with
      | .error er => .error er
      | .ok r =>
        if cnt + 1 = opts.limit then .ok ⟨off + 1, cnt + 1, acc ++ [r], true⟩
        else processEntries env ds opts rest (off + 1) (cnt + 1) (acc ++ [r])
    else processEntries env ds opts rest (off + 1) cnt acc

/-- Does a listing page have a usable pagination control: a "next" element with a
non-falsy href. -/
def nextOk (p : ListingPage) : Bool :=
  match p.next with
  | none => false
  | some el => !(falsy el.href)

/-- The while-loop of `_getAllClassic`.  The listing world is the chain of
listing pages reached by following the next links from `charactersUrl`; running
past the end of the chain is a fetch that throws (this also covers a failing
initial fetch, when the chain is empty). -/
def loopClassic (env : Env) (ds : List (String × Option String)) (bl : List String)
    (opts : Options) :
    List ListingPage → Int → Int → List IData → Except ScrapeError (List IData)
  | [], _, _, _ => .error (.fetchFail "listing")
  | p :: rest, off, cnt, acc =>
    if opts.limit ≤ cnt then .ok acc
    else
      match processEntries env ds opts (filterBannedElement p.entries bl) off cnt acc with
      | .error er => .error er
      | .ok out =>
        if out.early then .ok out.acc
        else if nextOk p then loopClassic env ds bl opts rest out.off out.cnt out.acc
        else .ok out.acc

/-- Page layout tags of the schema. -/
inductive PageFormat where
  | classic
  | table1
  | table2
deriving Repr, DecidableEq

/-- A per-wiki schema (interface ISchema).  The data-source map is an ordered
string map whose values may be falsy. -/
structure ISchema where
  url : String
  pageFormat : PageFormat
  charactersUrl : String
  dataSource : List (String × Option String)
deriving Repr, DecidableEq

/-- The body of `getAll` before the catch: eager option validation, then dispatch
on the page format (only `classic` does anything; the other formats fall through
to the trailing `return []`).  The ban list `bl` and the listing chain `pages`
stand for the `allCharactersPage` constants of `src/utils` (not under `src/`) and
for the documents fetched from `charactersUrl` onward. -/
def getAllE (sch : ISchema) (bl : List String) (env : Env) (pages : List ListingPage)
    (opts : Options) : Except ScrapeError (List IData) :=
  if opts.limit < 1 then .error .invalidLimit
  else if opts.offset < 0 then .error .invalidOffset
  else if opts.limit < opts.offset then .error .offsetGreaterThanLimit
  else
    match sch.pageFormat with
    | .classic => loopClassic env sch.dataSource bl opts pages 0 0 []
    | _ => .ok []

/-- Translation of the public `getAll`: the whole body is wrapped in a try/catch
that logs any thrown error and returns the empty list. -/
def getAll (sch : ISchema) (bl : List String) (env : Env) (pages : List ListingPage)
    (opts : Options) : List IData :=
  match getAllE sch bl env pages opts with
  | .ok res => res
  | .error _ => []

/-- The constructor argument (interface IConstructor); `language` is `none` for
null/undefined. -/
structure IConstructor where
  name : String
  language : Option String
deriving Repr, DecidableEq

/-- Outcomes of a failing construction: the `Invalid wiki name` error thrown by
the guard, and the JS TypeError raised by reading a property of the undefined
`Schemas[name]`. -/
inductive ConstructError where
  | invalidWikiName
  | typeErrorUndefined
deriving Repr, DecidableEq

/-- Translation of `isValidConstructor`: the body is the placeholder
`return !!constructor.name`, a truthiness test on the name only. -/
def isValidConstructor (c : IConstructor) : Bool := decide (¬ c.name = "")

/-- Schema of src/unnamed/part_000 (`DragonBallFR`).  Modelled from the spec:
the referenced data-source map files are not under `src/`, so the data-source
maps are left empty; the URLs and page formats are from the source. -/
def DragonBallFR : ISchema :=
  { url := "https://dragonball.fandom.com/fr/wiki/"
  , pageFormat := .classic
  , charactersUrl := "https://dragonball.fandom.com/fr/wiki/Catégorie:Personnages"
  , dataSource := [] }

/-- Schema of src/unnamed/part_000 (`DragonBallEN`); see `DragonBallFR`. -/
def DragonBallEN : ISchema :=
  { url := "https://dragonball.fandom.com/wiki/"
  , pageFormat := .classic
  , charactersUrl := "https://dragonball.fandom.com/wiki/Characters"
  , dataSource := [] }

/-- Schema of src/wikia/death-note/schemas.ts (`DeathNoteFR`); see `DragonBallFR`. -/
def DeathNoteFR : ISchema :=
  { url := "https://deathnote.fandom.com/fr/wiki/"
  , pageFormat := .classic
  , charactersUrl := "https://deathnote.fandom.com/fr/wiki/Cat%C3%A9gorie:Personnages"
  , dataSource := [] }

/-- Schema of src/wikia/death-note/schemas.ts (`DeathNoteEN`); see `DragonBallFR`. -/
def DeathNoteEN : ISchema :=
  { url := "https://deathnote.fandom.com/wiki/"
  , pageFormat := .classic
  , charactersUrl := "https://deathnote.fandom.com/wiki/Category:Manga_characters"
  , dataSource := [] }

/-- Modelled from the spec: the `Schemas` registry module (`./schemas`) is not
under `src/`; per the spec it is "a mapping from (fiction identifier, language
code) to SiteSchema", here populated with the two wikis whose schema files are in
the repository. -/
def Schemas : List (String × List (String × ISchema)) :=
  [ ("dragon-ball", [("en", DragonBallEN), ("fr", DragonBallFR)])
  , ("death-note", [("en", DeathNoteEN), ("fr", DeathNoteFR)]) ]

/-- Translation of the constructor body: the guard throws `Invalid wiki name`
only when `isValidConstructor` fails; a null/undefined language defaults to
`en`; then `Schemas[name][language]` is read — when `Schemas[name]` is
undefined this is a TypeError, and when only the language is missing, the
undefined value is assigned without any error (the `Option ISchema` result). -/
def mkScraper (c : IConstructor) : Except ConstructError (Option ISchema) :=
  if ¬ isValidConstructor c then .error .invalidWikiName
  else
    let lang := c.language.getD "en"
    match alookup Schemas c.name with
    | none => .error .typeErrorUndefined
    | some tbl => .ok (alookup tbl lang)

/-- Reference window over a stream of filtered listing elements: starting with
offset counter `off` and emitted count `cnt`, the elements the classic loop acts
upon, in order, stopping once the count reaches the limit. -/
def winE (opts : Options) : List Element → Int → Int → List Element
  | [], _, _ => []
  | e :: rest, off, cnt =>
    if opts.offset ≤ off then
      if cnt + 1 = opts.limit then [e]
      else e :: winE opts rest (off + 1) (cnt + 1)
    else winE opts rest (off + 1) cnt

/-- The filtered listing stream: concatenation of the filtered entries of the
pages the walker can reach (it stops at the first page without a usable next
control). -/
def streamF (bl : List String) : List ListingPage → List Element
  | [] => []
  | p :: rest =>
    filterBannedElement p.entries bl ++ (if nextOk p then streamF bl rest else [])

/-- Error-propagating map (the per-entry record construction lifted to lists). -/
def mapExcept {α β ε : Type} (f : α → Except ε β) : List α → Except ε (List β)
  | [] => .ok []
  | a :: as =>
    match f a with
    | .error e => .error e
    | .ok b =>
      match mapExcept f as with
      | .error e => .error e
      | .ok bs => .ok (b :: bs)

/-- A character page with no scripts, images or data rows. -/
def cp0 : CharPage := ⟨[], [], []⟩

/-- An environment where every fetch fails. -/
def envEmpty : Env := ⟨fun _ => none, fun _ => none⟩

/-- A generic classic schema with an empty data-source map. -/
def sch0 : ISchema := ⟨"https://w/", .classic, "https://w/chars", []⟩

/-- Listing page whose only (acted-upon) entry has no href attribute. -/
def pg2 : ListingPage := ⟨[⟨none, "Bad"⟩], none⟩

/-- Options with limit 1 and offset 0 (no extraction). -/
def opts2 : Options := ⟨1, 0, false, false, false⟩

/-- Listing page with a single well-formed entry. -/
def pg2w : ListingPage := ⟨[⟨some "/wiki/B", "B"⟩], none⟩

/-- Environment resolving only the `/wiki/B` entry. -/
def env2w : Env := ⟨fun u => if u = "/wiki/B" then some cp0 else none, fun _ => none⟩

/-- Options with limit 5 and offset 0 (no extraction). -/
def opts2w : Options := ⟨5, 0, false, false, false⟩

/-- Environment resolving the `/wiki/B` and `/wiki/C` entries only. -/
def env3 : Env :=
  ⟨fun u => if u = "/wiki/B" then some cp0 else if u = "/wiki/C" then some cp0 else none,
   fun _ => none⟩

/-- Listing page with five well-formed entries A..E. -/
def pg3 : ListingPage :=
  { entries := [⟨some "/wiki/A", "A"⟩, ⟨some "/wiki/B", "B"⟩, ⟨some "/wiki/C", "C"⟩,
                ⟨some "/wiki/D", "D"⟩, ⟨some "/wiki/E", "E"⟩]
  , next := none }

/-- Options limit 2, offset 1 (the spec's scenario). -/
def opts3 : Options := ⟨2, 1, false, false, false⟩

/-- Well-formed listing entry G. -/
def e4good : Element := ⟨some "/wiki/G", "G"⟩

/-- Listing entry without an href attribute. -/
def e4bad : Element := ⟨none, "Bad"⟩

/-- Environment resolving only the `/wiki/G` entry. -/
def env4 : Env := ⟨fun u => if u = "/wiki/G" then some cp0 else none, fun _ => none⟩

/-- Listing page with a good entry followed by a malformed one. -/
def pg4 : ListingPage := ⟨[e4good, e4bad], none⟩

/-- Options limit 2, offset 0 (no extraction). -/
def opts4 : Options := ⟨2, 0, false, false, false⟩

/-- The record produced for entry G in a plain run. -/
def rec4G : IData := ⟨none, "/wiki/G", "G", none⟩

/-- Character page whose only data rows are for the locators ageSrc and kanjiSrc. -/
def page6 : CharPage := ⟨[], [], [("ageSrc", some "25"), ("kanjiSrc", some "Kira")]⟩

/-- Character page whose first script mentions pageId without the full pattern
while its second script matches the pageId regex. -/
def c8page : CharPage := ⟨["var pageId = 1;", "\"pageId\":42"], [], []⟩

/-- Character page whose single script matches the pageId regex with value 7. -/
def page8 : CharPage := ⟨["a \"pageId\":7 b"], [], []⟩

/-- Environment resolving `/wiki/X` to `page8`. -/
def env8 : Env := ⟨fun u => if u = "/wiki/X" then some page8 else none, fun _ => none⟩

/-- Well-formed listing entry X. -/
def e8 : Element := ⟨some "/wiki/X", "X"⟩

/-- Environment resolving `/wiki/X` to `c8page`. -/
def env8c : Env := ⟨fun u => if u = "/wiki/X" then some c8page else none, fun _ => none⟩

/-- Options limit 5, offset 0, with id extraction. -/
def opts8 : Options := ⟨5, 0, false, false, true⟩

/-- Listing entry whose text contains a banned word (up to case). -/
def e9ban : Element := ⟨some "/cat", "Admin Stuff"⟩

/-- Listing entry with an ordinary character name. -/
def e9ok : Element := ⟨some "/wiki/Goku", "Goku"⟩

/-- Character page where the class imgcls has one image and a data row also
exists for the same locator string, with bracketed text. -/
def page10 : CharPage := ⟨[], [("imgcls", [some "a.png"])], [("imgcls", some "Override[1]")]⟩

/-- Options with recursive extraction, no base64. -/
def opts10 : Options := ⟨1, 0, true, false, false⟩

/-! ### Lemmas about the verification-layer helpers -/

theorem mapExcept_length {α β ε : Type} (f : α → Except ε β) :
    ∀ {xs : List α} {ys : List β}, mapExcept f xs = .ok ys → ys.length = xs.length := by
  intro xs
  induction xs with
  | nil =>
    intro ys h
    simp only [mapExcept] at h
    cases h
    rfl
  | cons a as ih =>
    intro ys h
    simp only [mapExcept] at h
    cases hf : f a with
    | error e => simp only [hf] at h; simp at h
    | ok b =>
      simp only [hf] at h
      cases hm : mapExcept f as with
      | error e => simp only [hm] at h; simp at h
      | ok bs =>
        simp only [hm] at h
        cases h
        simp [ih hm]

theorem mapExcept_append {α β ε : Type} (f : α → Except ε β) :
    ∀ {xs ys : List α} {as bs : List β},
      mapExcept f xs = .ok as → mapExcept f ys = .ok bs →
      mapExcept f (xs ++ ys) = .ok (as ++ bs) := by
  intro xs
  induction xs with
  | nil =>
    intro ys as bs h1 h2
    simp only [mapExcept] at h1
    cases h1
    simpa using h2
  | cons a as0 ih =>
    intro ys as bs h1 h2
    simp only [mapExcept] at h1
    cases hf : f a with
    | error e => simp only [hf] at h1; simp at h1
    | ok b =>
      simp only [hf] at h1
      cases hm : mapExcept f as0 with
      | error e => simp only [hm] at h1; simp at h1
      | ok bs0 =>
        simp only [hm] at h1
        cases h1
        rw [List.cons_append]
        simp only [mapExcept, hf, ih hm h2, List.cons_append]

theorem mapExcept_mem {α β ε : Type} (f : α → Except ε β) :
    ∀ {xs : List α} {ys : List β}, mapExcept f xs = .ok ys →
      ∀ {y : β}, y ∈ ys → ∃ x ∈ xs, f x = .ok y := by
  intro xs
  induction xs with
  | nil =>
    intro ys h y hy
    simp only [mapExcept] at h
    cases h
    simp at hy
  | cons a as ih =>
    intro ys h y hy
    simp only [mapExcept] at h
    cases hf : f a with
    | error e => simp only [hf] at h; simp at h
    | ok b =>
      simp only [hf] at h
      cases hm : mapExcept f as with
      | error e => simp only [hm] at h; simp at h
      | ok bs =>
        simp only [hm] at h
        cases h
        rcases List.mem_cons.mp hy with rfl | hy2
        · exact ⟨a, List.mem_cons_self a as, hf⟩
        · obtain ⟨x, hx, hfx⟩ := ih hm hy2
          exact ⟨x, List.mem_cons_of_mem a hx, hfx⟩

theorem alookup_objSet :
    ∀ (m : Obj) (k : String) (v : FieldValue) (k' : String),
      alookup (objSet m k v) k' = if k = k' then some v else alookup m k' := by
  intro m
  induction m with
  | nil => intro k v k'; simp [objSet, alookup]
  | cons kv rest ih =>
    intro k v k'
    obtain ⟨k0, v0⟩ := kv
    simp only [objSet]
    by_cases h0 : k0 = k
    · subst h0
      simp only [if_pos rfl, alookup]
      by_cases hk : k0 = k'
      · simp [hk, alookup]
      · simp [hk, alookup]
    · rw [if_neg h0]
      simp only [alookup, ih]
      by_cases hk : k0 = k'
      · subst hk
        have hkk : ¬ (k = k0) := fun hh => h0 hh.symm
        simp [hkk]
      · simp [hk]

theorem winE_length_le (opts : Options) :
    ∀ (es : List Element) (off cnt : Int), cnt < opts.limit →
      cnt + ((winE opts es off cnt).length : Int) ≤ opts.limit := by
  intro es
  induction es with
  | nil =>
    intro off cnt hc
    simp only [winE, List.length_nil, Nat.cast_zero]
    omega
  | cons e rest ih =>
    intro off cnt hc
    simp only [winE]
    split_ifs with hoff hlim
    · simp only [List.length_singleton, Nat.cast_one]
      omega
    · have h2 := ih (off + 1) (cnt + 1) (by omega)
      simp only [List.length_cons]
      push_cast
      push_cast at h2
      omega
    · exact ih (off + 1) cnt hc

theorem winE_append (opts : Options) :
    ∀ (xs ys : List Element) (off cnt : Int), cnt < opts.limit →
      winE opts (xs ++ ys) off cnt =
        winE opts xs off cnt ++
          (if cnt + ((winE opts xs off cnt).length : Int) = opts.limit then []
           else winE opts ys (off + (xs.length : Int)) (cnt + ((winE opts xs off cnt).length : Int))) := by
  intro xs
  induction xs with
  | nil =>
    intro ys off cnt hc
    simp only [List.nil_append, winE, List.length_nil, Nat.cast_zero, add_zero]
    rw [if_neg (by omega)]
  | cons x xs ih =>
    intro ys off cnt hc
    rw [List.cons_append]
    by_cases hoff : opts.offset ≤ off
    · by_cases hlim : cnt + 1 = opts.limit
      · have hw : winE opts (x :: xs) off cnt = [x] := by
          simp [winE, hoff, hlim]
        have hl : winE opts (x :: (xs ++ ys)) off cnt = [x] := by
          simp [winE, hoff, hlim]
        rw [hl, hw, if_pos (by simpa using hlim), List.append_nil]
      · have hw : winE opts (x :: xs) off cnt = x :: winE opts xs (off + 1) (cnt + 1) := by
          simp [winE, hoff, hlim]
        have hl : winE opts (x :: (xs ++ ys)) off cnt
            = x :: winE opts (xs ++ ys) (off + 1) (cnt + 1) := by
          simp [winE, hoff, hlim]
        rw [hl, hw, ih ys (off + 1) (cnt + 1) (by omega)]
        have harg1 : off + (((x :: xs).length : Nat) : Int) = (off + 1) + (xs.length : Int) := by
          simp only [List.length_cons]
          push_cast
          ring
        have harg2 : cnt + (((x :: winE opts xs (off + 1) (cnt + 1)).length : Nat) : Int)
            = (cnt + 1) + ((winE opts xs (off + 1) (cnt + 1)).length : Int) := by
          simp only [List.length_cons]
          push_cast
          ring
        rw [harg1, harg2, List.cons_append]
    · have hw : winE opts (x :: xs) off cnt = winE opts xs (off + 1) cnt := by
        simp [winE, hoff]
      have hl : winE opts (x :: (xs ++ ys)) off cnt = winE opts (xs ++ ys) (off + 1) cnt := by
        simp [winE, hoff]
      rw [hl, hw, ih ys (off + 1) cnt hc]
      have harg1 : off + (((x :: xs).length : Nat) : Int) = (off + 1) + (xs.length : Int) := by
        simp only [List.length_cons]
        push_cast
        ring
      rw [harg1]

theorem winE_eq_take_drop (opts : Options) :
    ∀ (es : List Element) (off cnt : Int), cnt < opts.limit →
      winE opts es off cnt =
        (es.drop (opts.offset - off).toNat).take (opts.limit - cnt).toNat := by
  intro es
  induction es with
  | nil =>
    intro off cnt hc
    simp [winE]
  | cons e rest ih =>
    intro off cnt hc
    simp only [winE]
    split_ifs with hoff hlim
    · have hd : (opts.offset - off).toNat = 0 := by omega
      have ht : (opts.limit - cnt).toNat = 1 := by omega
      rw [hd, ht]
      simp
    · rw [ih (off + 1) (cnt + 1) (by omega)]
      have hd : (opts.offset - off).toNat = 0 := by omega
      have hd2 : (opts.offset - (off + 1)).toNat = 0 := by omega
      have ht : (opts.limit - cnt).toNat = (opts.limit - (cnt + 1)).toNat + 1 := by omega
      rw [hd, hd2, ht]
      simp
    · rw [ih (off + 1) cnt hc]
      have hd : (opts.offset - off).toNat = (opts.offset - (off + 1)).toNat + 1 := by omega
      rw [hd]
      simp

theorem winE_eq_drop (opts : Options) :
    ∀ (es : List Element) (off cnt : Int), cnt < opts.limit →
      cnt + ((winE opts es off cnt).length : Int) < opts.limit →
      winE opts es off cnt = es.drop (opts.offset - off).toNat := by
  intro es
  induction es with
  | nil =>
    intro off cnt _ _
    simp [winE]
  | cons e rest ih =>
    intro off cnt hc h2
    by_cases hoff : opts.offset ≤ off
    · by_cases hlim : cnt + 1 = opts.limit
      · simp only [winE, if_pos hoff, if_pos hlim, List.length_singleton, Nat.cast_one] at h2
        omega
      · simp only [winE, if_pos hoff, if_neg hlim, List.length_cons] at h2 ⊢
        have h2' : (cnt + 1) + ((winE opts rest (off + 1) (cnt + 1)).length : Int) < opts.limit := by
          push_cast at h2
          omega
        rw [ih (off + 1) (cnt + 1) (by omega) h2']
        have hd : (opts.offset - off).toNat = 0 := by omega
        have hd2 : (opts.offset - (off + 1)).toNat = 0 := by omega
        rw [hd, hd2]
        simp
    · simp only [winE, if_neg hoff] at h2 ⊢
      rw [ih (off + 1) cnt hc h2]
      have hd : (opts.offset - off).toNat = (opts.offset - (off + 1)).toNat + 1 := by omega
      rw [hd]
      simp

theorem processEntries_ok (env : Env) (ds : List (String × Option String)) (opts : Options) :
    ∀ (es : List Element) {off cnt : Int} {acc : List IData} {out : PEOut},
      cnt < opts.limit →
      processEntries env ds opts es off cnt acc = .ok out →
      ∃ recs, mapExcept (recordOf env ds opts) (winE opts es off cnt) = .ok recs ∧
        out.acc = acc ++ recs ∧ out.cnt = cnt + (recs.length : Int) ∧
        out.cnt ≤ opts.limit ∧ (out.early = true ↔ out.cnt = opts.limit) ∧
        (out.early = false → out.off = off + (es.length : Int)) := by
  intro es
  induction es with
  | nil =>
    intro off cnt acc out hc h
    simp only [processEntries] at h
    cases h
    refine ⟨[], ?_, ?_, ?_, ?_, ?_, ?_⟩
    · simp [winE, mapExcept]
    · simp
    · simp
    · show cnt ≤ opts.limit
      omega
    · show (false = true ↔ cnt = opts.limit)
      simp only [Bool.false_eq_true, false_iff]
      omega
    · intro _
      simp
  | cons e rest ih =>
    intro off cnt acc out hc h
    simp only [processEntries] at h
    by_cases hoff : opts.offset ≤ off
    · rw [if_pos hoff] at h
      cases hrec : recordOf env ds opts e with
      | error er => simp only [hrec] at h; simp at h
      | ok r0 =>
        simp only [hrec] at h
        by_cases hlim : cnt + 1 = opts.limit
        · rw [if_pos hlim] at h
          cases h
          refine ⟨[r0], ?_, rfl, ?_, ?_, ?_, ?_⟩
          · simp [winE, hoff, hlim, mapExcept, hrec]
          · show cnt + 1 = cnt + (([r0].length : Nat) : Int)
            simp
          · show cnt + 1 ≤ opts.limit
            omega
          · show (true = true ↔ cnt + 1 = opts.limit)
            simp [hlim]
          · intro hfalse
            simp at hfalse
        · rw [if_neg hlim] at h
          obtain ⟨recs, hm, hacc, hcnt, hle, hear, hoffr⟩ := ih (by omega) h
          refine ⟨r0 :: recs, ?_, ?_, ?_, hle, hear, ?_⟩
          · have hwin : winE opts (e :: rest) off cnt = e :: winE opts rest (off + 1) (cnt + 1) := by
              simp [winE, hoff, hlim]
            rw [hwin]
            simp only [mapExcept, hrec, hm]
          · rw [hacc]
            simp
          · rw [hcnt]
            simp only [List.length_cons]
            push_cast
            ring
          · intro hne
            rw [hoffr hne]
            simp only [List.length_cons]
            push_cast
            ring
    · rw [if_neg hoff] at h
      obtain ⟨recs, hm, hacc, hcnt, hle, hear, hoffr⟩ := ih hc h
      refine ⟨recs, ?_, hacc, hcnt, hle, hear, ?_⟩
      · have hwin : winE opts (e :: rest) off cnt = winE opts rest (off + 1) cnt := by
          simp [winE, hoff]
        rw [hwin]
        exact hm
      · intro hne
        rw [hoffr hne]
        simp only [List.length_cons]
        push_cast
        ring

theorem processEntries_append (env : Env) (ds : List (String × Option String)) (opts : Options) :
    ∀ (es₁ es₂ : List Element) (off cnt : Int) (acc : List IData),
      processEntries env ds opts (es₁ ++ es₂) off cnt acc =
        match processEntries env ds opts es₁ off cnt acc with
        | .error er => .error er
        | .ok out =>
          if out.early then .ok out
          else processEntries env ds opts es₂ out.off out.cnt out.acc := by
  intro es₁
  induction es₁ with
  | nil =>
    intro es₂ off cnt acc
    simp [processEntries]
  | cons e rest ih =>
    intro es₂ off cnt acc
    rw [List.cons_append]
    simp only [processEntries]
    by_cases hoff : opts.offset ≤ off
    · rw [if_pos hoff, if_pos hoff]
      cases hrec : recordOf env ds opts e with
      | error er => simp
      | ok r0 =>
        by_cases hlim : cnt + 1 = opts.limit
        · simp [hlim]
        · simp only [if_neg hlim]
          exact ih es₂ (off + 1) (cnt + 1) (acc ++ [r0])
    · rw [if_neg hoff, if_neg hoff]
      exact ih es₂ (off + 1) cnt acc

theorem loopClassic_ok (env : Env) (ds : List (String × Option String)) (bl : List String)
    (opts : Options) :
    ∀ (pages : List ListingPage) {off cnt : Int} {acc r : List IData},
      cnt < opts.limit →
      loopClassic env ds bl opts pages off cnt acc = .ok r →
      ∃ recs, mapExcept (recordOf env ds opts) (winE opts (streamF bl pages) off cnt) = .ok recs ∧
        r = acc ++ recs := by
  intro pages
  induction pages with
  | nil =>
    intro off cnt acc r hc h
    simp only [loopClassic] at h
    simp at h
  | cons p rest ih =>
    intro off cnt acc r hc h
    simp only [loopClassic] at h
    rw [if_neg (by omega : ¬ opts.limit ≤ cnt)] at h
    cases hpe : processEntries env ds opts (filterBannedElement p.entries bl) off cnt acc with
    | error er => simp only [hpe] at h; simp at h
    | ok out =>
      simp only [hpe] at h
      obtain ⟨recs1, hm1, hacc, hcnt, hle, hear, hoffr⟩ :=
        processEntries_ok env ds opts _ hc hpe
      have hlen1 : recs1.length = (winE opts (filterBannedElement p.entries bl) off cnt).length :=
        mapExcept_length _ hm1
      by_cases hearly : out.early = true
      · rw [if_pos hearly] at h
        cases h
        have hcl := hear.mp hearly
        have hcond : cnt + ((winE opts (filterBannedElement p.entries bl) off cnt).length : Int)
            = opts.limit := by
          rw [← hlen1]
          omega
        refine ⟨recs1, ?_, hacc⟩
        have hstream : streamF bl (p :: rest)
            = filterBannedElement p.entries bl ++ (if nextOk p then streamF bl rest else []) := rfl
        rw [hstream, winE_append opts _ _ _ _ hc, if_pos hcond, List.append_nil]
        exact hm1
      · have hne : out.early = false := by
          cases hout : out.early
          · rfl
          · exact absurd hout hearly
        rw [if_neg (by simp [hne])] at h
        have hcnt_lt : out.cnt < opts.limit := by
          have hnl : ¬ out.cnt = opts.limit := fun hh => hearly (hear.mpr hh)
          omega
        have hcond : ¬ (cnt + ((winE opts (filterBannedElement p.entries bl) off cnt).length : Int)
            = opts.limit) := by
          rw [← hlen1]
          omega
        by_cases hnx : nextOk p = true
        · rw [if_pos hnx] at h
          obtain ⟨recs2, hm2, hr⟩ := ih hcnt_lt h
          refine ⟨recs1 ++ recs2, ?_, ?_⟩
          · have hstream : streamF bl (p :: rest)
                = filterBannedElement p.entries bl ++ streamF bl rest := by
              simp [streamF, hnx]
            rw [hstream, winE_append opts _ _ _ _ hc, if_neg hcond]
            have hoff2 : off + (((filterBannedElement p.entries bl).length : Nat) : Int)
                = out.off := (hoffr hne).symm
            have hcnt2 : cnt + ((winE opts (filterBannedElement p.entries bl) off cnt).length : Int)
                = out.cnt := by
              rw [← hlen1]
              omega
            rw [hoff2, hcnt2]
            exact mapExcept_append _ hm1 hm2
          · rw [hr, hacc, List.append_assoc]
        · rw [if_neg hnx] at h
          cases h
          refine ⟨recs1, ?_, hacc⟩
          have hstream : streamF bl (p :: rest) = filterBannedElement p.entries bl ++ [] := by
            simp [streamF, hnx]
          rw [hstream, List.append_nil]
          exact hm1

theorem getAll_eq_nil_of_error {sch : ISchema} {bl : List String} {env : Env}
    {pages : List ListingPage} {opts : Options} {er : ScrapeError}
    (h : getAllE sch bl env pages opts = .error er) :
    getAll sch bl env pages opts = [] := by
  unfold getAll
  rw [h]

theorem getAllE_classic_ok {sch : ISchema} {bl : List String} {env : Env}
    {pages : List ListingPage} {opts : Options} {r : List IData}
    (hf : sch.pageFormat = PageFormat.classic)
    (h : getAllE sch bl env pages opts = .ok r) :
    1 ≤ opts.limit ∧ 0 ≤ opts.offset ∧ opts.offset ≤ opts.limit ∧
      mapExcept (recordOf env sch.dataSource opts)
        (((streamF bl pages).drop opts.offset.toNat).take opts.limit.toNat) = .ok r := by
  unfold getAllE at h
  by_cases h1 : opts.limit < 1
  · rw [if_pos h1] at h
    simp at h
  rw [if_neg h1] at h
  by_cases h2 : opts.offset < 0
  · rw [if_pos h2] at h
    simp at h
  rw [if_neg h2] at h
  by_cases h3 : opts.limit < opts.offset
  · rw [if_pos h3] at h
    simp at h
  rw [if_neg h3] at h
  rw [hf] at h
  have hc : (0 : Int) < opts.limit := by omega
  obtain ⟨recs, hm, hr⟩ := loopClassic_ok env sch.dataSource bl opts pages hc h
  refine ⟨by omega, by omega, by omega, ?_⟩
  rw [winE_eq_take_drop opts _ _ _ hc] at hm
  simp only [sub_zero] at hm
  rw [hr]
  simpa using hm

theorem getAllE_ok_nonclassic {sch : ISchema} {bl : List String} {env : Env}
    {pages : List ListingPage} {opts : Options} {r : List IData}
    (hf : ¬ sch.pageFormat = PageFormat.classic)
    (h : getAllE sch bl env pages opts = .ok r) : r = [] := by
  unfold getAllE at h
  by_cases h1 : opts.limit < 1
  · rw [if_pos h1] at h
    simp at h
  rw [if_neg h1] at h
  by_cases h2 : opts.offset < 0
  · rw [if_pos h2] at h
    simp at h
  rw [if_neg h2] at h
  by_cases h3 : opts.limit < opts.offset
  · rw [if_pos h3] at h
    simp at h
  rw [if_neg h3] at h
  cases hpf : sch.pageFormat with
  | classic => exact absurd hpf hf
  | table1 => simp only [hpf] at h; cases h; rfl
  | table2 => simp only [hpf] at h; cases h; rfl

theorem recordOf_ok_fields {env : Env} {ds : List (String × Option String)} {opts : Options}
    {e : Element} {rcd : IData} (h : recordOf env ds opts e = .ok rcd) :
    (opts.recursive = false → rcd.data = none) ∧
    (opts.withId = false → rcd.id = none) ∧
    (∀ page, env.fetchChar (e.href.getD "") = some page →
       opts.withId = true → rcd.id = some (pageIdOf page)) := by
  unfold recordOf at h
  by_cases h1 : falsy e.href = true
  · rw [if_pos h1] at h
    simp at h
  rw [if_neg h1] at h
  by_cases h2 : e.text = ""
  · rw [if_pos h2] at h
    simp at h
  rw [if_neg h2] at h
  cases hfc : env.fetchChar (e.href.getD "") with
  | none => simp only [hfc] at h; simp at h
  | some page =>
    simp only [hfc] at h
    cases hpp : (if opts.recursive then parseCharacterPage env opts ds page
        else .ok [] : Except ScrapeError Obj) with
    | error er => simp only [hpp] at h; simp at h
    | ok cd =>
      simp only [hpp] at h
      cases h
      refine ⟨?_, ?_, ?_⟩
      · intro hrec
        simp [hrec]
      · intro hw
        simp [hw]
      · intro page2 hfc2 hw
        cases hfc2
        simp [hw]

theorem getAll_eq_of_ok {sch : ISchema} {bl : List String} {env : Env}
    {pages : List ListingPage} {opts : Options} {r : List IData}
    (h : getAllE sch bl env pages opts = .ok r) :
    getAll sch bl env pages opts = r := by
  unfold getAll
  rw [h]

theorem parseFields_append (env : Env) (opts : Options) (page : CharPage) :
    ∀ (ds₁ ds₂ : List (String × Option String)) (acc : Obj),
      parseFields env opts page (ds₁ ++ ds₂) acc =
        match parseFields env opts page ds₁ acc with
        | .error er => .error er
        | .ok m => parseFields env opts page ds₂ m := by
  intro ds₁
  induction ds₁ with
  | nil =>
    intro ds₂ acc
    simp [parseFields]
  | cons kv rest ih =>
    intro ds₂ acc
    obtain ⟨key, sk?⟩ := kv
    rw [List.cons_append]
    simp only [parseFields]
    by_cases hf : falsy sk? = true
    · rw [if_pos hf, if_pos hf]
      exact ih ds₂ acc
    · rw [if_neg hf, if_neg hf]
      cases hstep : parseFieldStep env opts page key (sk?.getD "") acc with
      | error er => simp [hstep]
      | ok acc1 =>
        simp only [hstep]
        cases hds : alookup page.dataSrc (sk?.getD "") with
        | none => exact ih ds₂ acc1
        | some vo =>
          cases vo with
          | none => exact ih ds₂ acc1
          | some v =>
            dsimp only
            by_cases hv : v = ""
            · rw [if_pos hv, if_pos hv]
              exact ih ds₂ acc1
            · rw [if_neg hv, if_neg hv]
              exact ih ds₂ (objSet acc1 key (.str (removeBrackets v)))

theorem parseFields_miss_cons (env : Env) (opts : Options) (page : CharPage)
    {key sk : String} (hk : ¬ key = "images") (hsk : ¬ sk = "")
    (hm : dsMiss page sk = true) (rest : List (String × Option String)) (acc : Obj) :
    parseFields env opts page ((key, some sk) :: rest) acc
      = parseFields env opts page rest acc := by
  simp only [parseFields]
  rw [if_neg (by simp [falsy, hsk] : ¬ falsy (some sk) = true)]
  simp only [Option.getD_some]
  rw [show parseFieldStep env opts page key sk acc = .ok acc by simp [parseFieldStep, hk]]
  unfold dsMiss at hm
  cases halk : alookup page.dataSrc sk with
  | none => simp only [halk]
  | some vo =>
    cases vo with
    | none => simp only [halk]
    | some v =>
      rw [halk] at hm
      simp only [decide_eq_true_eq] at hm
      simp only [halk, if_pos hm]

theorem parseFields_writes_only (env : Env) (opts : Options) (page : CharPage) :
    ∀ (ds : List (String × Option String)) {acc m : Obj} {key : String},
      key ∉ ds.map Prod.fst →
      parseFields env opts page ds acc = .ok m →
      alookup m key = alookup acc key := by
  intro ds
  induction ds with
  | nil =>
    intro acc m key _ h
    simp only [parseFields] at h
    cases h
    rfl
  | cons kv rest ih =>
    intro acc m key hnot h
    obtain ⟨k0, sk?⟩ := kv
    have hk0 : ¬ key = k0 := by
      intro hh
      exact hnot (by simp [hh])
    have hrest : key ∉ rest.map Prod.fst := by
      intro hh
      apply hnot
      simp only [List.map_cons, List.mem_cons]
      exact Or.inr hh
    simp only [parseFields] at h
    by_cases hf : falsy sk? = true
    · rw [if_pos hf] at h
      exact ih hrest h
    · rw [if_neg hf] at h
      cases hstep : parseFieldStep env opts page k0 (sk?.getD "") acc with
      | error er => simp only [hstep] at h; simp at h
      | ok acc1 =>
        simp only [hstep] at h
        have hacc1 : alookup acc1 key = alookup acc key := by
          unfold parseFieldStep at hstep
          by_cases hk : k0 = "images"
          · rw [if_pos hk] at hstep
            cases hci : collectImages env opts (classLookup page (sk?.getD "")) with
            | error e2 => rw [hci] at hstep; simp at hstep
            | ok imgs =>
              simp only [hci] at hstep
              cases hstep
              rw [alookup_objSet]
              rw [if_neg (fun hh => hk0 hh.symm)]
          · rw [if_neg hk] at hstep
            cases hstep
            rfl
        cases hds : alookup page.dataSrc (sk?.getD "") with
        | none =>
          simp only [hds] at h
          rw [ih hrest h, hacc1]
        | some vo =>
          cases vo with
          | none =>
            simp only [hds] at h
            rw [ih hrest h, hacc1]
          | some v =>
            simp only [hds] at h
            by_cases hv : v = ""
            · rw [if_pos hv] at h
              rw [ih hrest h, hacc1]
            · rw [if_neg hv] at h
              rw [ih hrest h, alookup_objSet, if_neg (fun hh => hk0 hh.symm), hacc1]

theorem filterBannedElement_mem (es : List Element) (bl : List String) (e : Element) :
    e ∈ filterBannedElement es bl ↔
      (e ∈ es ∧ ∀ b ∈ bl, strIncludes (strToLower e.text) (strToLower b) = false) := by
  simp only [filterBannedElement, List.mem_filter, Bool.not_eq_true']
  rw [List.any_eq_false]
  constructor
  · intro ⟨hm, hall⟩
    exact ⟨hm, fun b hb => by simpa using hall b hb⟩
  · intro ⟨hm, hall⟩
    exact ⟨hm, fun b hb => by simpa using hall b hb⟩

theorem filterBannedElement_idem (es : List Element) (bl : List String) :
    filterBannedElement (filterBannedElement es bl) bl = filterBannedElement es bl := by
  simp only [filterBannedElement, List.filter_filter]
  congr 1
  funext e
  rw [Bool.and_self]

theorem loopClassic_prefiltered (env : Env) (ds : List (String × Option String))
    (bl : List String) (opts : Options) :
    ∀ (pages : List ListingPage) (off cnt : Int) (acc : List IData),
      loopClassic env ds bl opts
        (pages.map fun p => ⟨filterBannedElement p.entries bl, p.next⟩) off cnt acc
        = loopClassic env ds bl opts pages off cnt acc := by
  intro pages
  induction pages with
  | nil => intro off cnt acc; rfl
  | cons p rest ih =>
    intro off cnt acc
    simp only [List.map_cons, loopClassic]
    rw [filterBannedElement_idem]
    have hnx : nextOk ⟨filterBannedElement p.entries bl, p.next⟩ = nextOk p := rfl
    rw [hnx]
    by_cases hguard : opts.limit ≤ cnt
    · rw [if_pos hguard, if_pos hguard]
    · rw [if_neg hguard, if_neg hguard]
      cases hpe : processEntries env ds opts (filterBannedElement p.entries bl) off cnt acc with
      | error er => rfl
      | ok out =>
        by_cases hearly : out.early = true
        · simp [hearly]
        · simp only [Bool.not_eq_true] at hearly
          simp only [hearly, Bool.false_eq_true, if_false]
          by_cases hnx2 : nextOk p = true
          · simp only [hnx2, if_true]
            exact ih out.off out.cnt out.acc
          · simp only [Bool.not_eq_true] at hnx2
            simp only [hnx2, Bool.false_eq_true, if_false]

theorem pageIdOf_eq_zero {page : CharPage}
    (h : ∀ s ∈ page.scripts, findPageId s.toList = none) : pageIdOf page = 0 := by
  unfold pageIdOf extractPageId
  cases hfind : page.scripts.find? (fun sc => strIncludes sc "pageId") with
  | none => simp [findPageId]
  | some s =>
    have hs : s ∈ page.scripts := List.mem_of_find?_eq_some hfind
    have h2 := h s hs
    simp only [String.toList] at h2
    simp [h2]

theorem recordOf_noUrl (env : Env) (ds : List (String × Option String)) (opts : Options)
    {e : Element} (h : falsy e.href = true) :
    recordOf env ds opts e = .error ScrapeError.noUrl := by
  unfold recordOf
  rw [if_pos h]

theorem recordOf_noName (env : Env) (ds : List (String × Option String)) (opts : Options)
    {e : Element} (h : falsy e.href = false) (h2 : e.text = "") :
    recordOf env ds opts e = .error ScrapeError.noName := by
  unfold recordOf
  rw [if_neg (by simp [h]), if_pos h2]

theorem getAll_mem_recordOf {sch : ISchema} {bl : List String} {env : Env}
    {pages : List ListingPage} {opts : Options} {rcd : IData}
    (hmem : rcd ∈ getAll sch bl env pages opts) :
    ∃ e, recordOf env sch.dataSource opts e = .ok rcd := by
  unfold getAll at hmem
  cases hE : getAllE sch bl env pages opts with
  | error er => simp only [hE] at hmem; simp at hmem
  | ok r =>
    simp only [hE] at hmem
    by_cases hpf : sch.pageFormat = PageFormat.classic
    · obtain ⟨-, -, -, hm⟩ := getAllE_classic_ok hpf hE
      obtain ⟨e, -, hfe⟩ := mapExcept_mem _ hm hmem
      exact ⟨e, hfe⟩
    · rw [getAllE_ok_nonclassic hpf hE] at hmem
      simp at hmem

/-! ### Claims -/

/-- C1: the spec claims that invalid options (limit < 1, offset < 0 or
offset > limit) make `getAll` fail with an options error propagating synchronously
to the caller, before any network fetch.  On the code, the validation does throw
eagerly — the outcome is the same for every network environment and listing, so no
fetch is consulted — but the throw happens inside `getAll`'s try/catch, which logs
it and returns the empty list: the caller never sees the error, contradicting the
method's own `@throws` documentation.  This theorem evaluates the code at the
failing inputs: the internal run errors with the corresponding validation error,
yet `getAll` returns `[]`, independently of the environment. -/
theorem c1_invalid_options_swallowed (opts : Options)
    (h : opts.limit < 1 ∨ opts.offset < 0 ∨ opts.limit < opts.offset) :
    ∀ (sch : ISchema) (bl : List String) (env env2 : Env)
      (pages pages2 : List ListingPage),
      (∃ er, getAllE sch bl env pages opts = .error er ∧
         (er = ScrapeError.invalidLimit ∨ er = ScrapeError.invalidOffset ∨
          er = ScrapeError.offsetGreaterThanLimit)) ∧
      getAll sch bl env pages opts = [] ∧
      getAllE sch bl env pages opts = getAllE sch bl env2 pages2 opts := by
  intro sch bl env env2 pages pages2
  have key : ∃ er, (er = ScrapeError.invalidLimit ∨ er = ScrapeError.invalidOffset ∨
      er = ScrapeError.offsetGreaterThanLimit) ∧
      ∀ (env' : Env) (pages' : List ListingPage),
        getAllE sch bl env' pages' opts = .error er := by
    by_cases h1 : opts.limit < 1
    · exact ⟨ScrapeError.invalidLimit, Or.inl rfl, fun env' pages' => by
        unfold getAllE
        rw [if_pos h1]⟩
    · by_cases h2 : opts.offset < 0
      · exact ⟨ScrapeError.invalidOffset, Or.inr (Or.inl rfl), fun env' pages' => by
          unfold getAllE
          rw [if_neg h1, if_pos h2]⟩
      · have h3 : opts.limit < opts.offset := by omega
        exact ⟨ScrapeError.offsetGreaterThanLimit, Or.inr (Or.inr rfl), fun env' pages' => by
          unfold getAllE
          rw [if_neg h1, if_neg h2, if_pos h3]⟩
  obtain ⟨er, her, hall⟩ := key
  refine ⟨⟨er, hall env pages, her⟩, ?_, ?_⟩
  · exact getAll_eq_nil_of_error (hall env pages)
  · rw [hall env pages, hall env2 pages2]

/-- C1 witness: at limit 0 over a concrete world, `getAll` returns the empty list
(the thrown validation error never reaches the caller). -/
theorem c1_invalid_options_swallowed_witness :
    getAll sch0 [] env3 [pg3] ⟨0, 0, false, false, false⟩ = [] :=
  (c1_invalid_options_swallowed ⟨0, 0, false, false, false⟩ (Or.inl (by decide))
    sch0 [] env3 envEmpty [pg3] []).2.1

/-- C2 counterexample: over the world with one listing page whose single filtered,
post-offset entry is malformed, `getAll` with limit 1 returns strictly fewer than
`limit` records (none), although the listing was not exhausted — its one eligible
entry was never returned (the malformed-entry error aborted the run and was
swallowed). -/
theorem c2_counterexample :
    (getAll sch0 [] envEmpty [pg2] opts2).length < opts2.limit.toNat ∧
    ¬ ((getAll sch0 [] envEmpty [pg2] opts2).length
        = ((streamF [] [pg2]).drop opts2.offset.toNat).length) := by
  decide

/-- C2 (amended): (a) `getAll` never returns more than `limit` records; (b) when
the classic run completes without a (swallowed) internal error, strictly fewer
than `limit` records are returned only if the listing was exhausted — the result
is then exactly the records of every post-offset filtered entry of the listing
stream; (c) once the inner per-page loop has returned early (count = limit), the
remaining entries of that page are never examined, and (d) the loop returns that
accumulator immediately, ignoring the pagination control and all later pages. -/
theorem c2_limit_bound_and_exhaustion :
    (∀ (sch : ISchema) (bl : List String) (env : Env) (pages : List ListingPage)
       (opts : Options), (getAll sch bl env pages opts).length ≤ opts.limit.toNat) ∧
    (∀ (sch : ISchema) (bl : List String) (env : Env) (pages : List ListingPage)
       (opts : Options) (r : List IData), sch.pageFormat = PageFormat.classic →
       getAllE sch bl env pages opts = .ok r → (r.length : Int) < opts.limit →
       mapExcept (recordOf env sch.dataSource opts)
         ((streamF bl pages).drop opts.offset.toNat) = .ok r) ∧
    (∀ (env : Env) (ds : List (String × Option String)) (opts : Options)
       (es₁ es₂ : List Element) (off cnt : Int) (acc : List IData) (out : PEOut),
       processEntries env ds opts es₁ off cnt acc = .ok out → out.early = true →
       processEntries env ds opts (es₁ ++ es₂) off cnt acc = .ok out) ∧
    (∀ (env : Env) (ds : List (String × Option String)) (bl : List String)
       (opts : Options) (p : ListingPage) (rest : List ListingPage)
       (off cnt : Int) (acc : List IData) (out : PEOut), cnt < opts.limit →
       processEntries env ds opts (filterBannedElement p.entries bl) off cnt acc = .ok out →
       out.early = true →
       loopClassic env ds bl opts (p :: rest) off cnt acc = .ok out.acc) := by
  refine ⟨?_, ?_, ?_, ?_⟩
  · intro sch bl env pages opts
    cases hE : getAllE sch bl env pages opts with
    | error er =>
      rw [getAll_eq_nil_of_error hE]
      simp
    | ok r =>
      rw [getAll_eq_of_ok hE]
      by_cases hpf : sch.pageFormat = PageFormat.classic
      · obtain ⟨-, -, -, hm⟩ := getAllE_classic_ok hpf hE
        have hlen := mapExcept_length _ hm
        rw [hlen, List.length_take]
        exact min_le_left _ _
      · rw [getAllE_ok_nonclassic hpf hE]
        simp
  · intro sch bl env pages opts r hf hE hlt
    obtain ⟨hl1, -, -, hm⟩ := getAllE_classic_ok hf hE
    have hlen := mapExcept_length _ hm
    have hDlen : ((streamF bl pages).drop opts.offset.toNat).length ≤ opts.limit.toNat := by
      by_contra hcon
      push_neg at hcon
      rw [List.length_take] at hlen
      have hmin : r.length = opts.limit.toNat := by omega
      have hcast : ((opts.limit.toNat : Nat) : Int) = opts.limit := Int.toNat_of_nonneg (by omega)
      omega
    rwa [List.take_of_length_le hDlen] at hm
  · intro env ds opts es₁ es₂ off cnt acc out hpe hearly
    rw [processEntries_append env ds opts es₁ es₂ off cnt acc, hpe]
    simp [hearly]
  · intro env ds bl opts p rest off cnt acc out hc hpe hearly
    simp only [loopClassic]
    rw [if_neg (by omega : ¬ opts.limit ≤ cnt)]
    simp only [hpe]
    simp [hearly]

/-- C2 witness: a concrete exhausted run — one well-formed entry with limit 5 —
satisfies the bound and returns exactly the records of all eligible entries. -/
theorem c2_limit_bound_and_exhaustion_witness :
    (getAll sch0 [] env2w [pg2w] opts2w).length ≤ opts2w.limit.toNat ∧
    mapExcept (recordOf env2w sch0.dataSource opts2w)
      ((streamF [] [pg2w]).drop opts2w.offset.toNat)
      = .ok [⟨none, "/wiki/B", "B", none⟩] := by
  constructor
  · exact c2_limit_bound_and_exhaustion.1 sch0 [] env2w [pg2w] opts2w
  · exact c2_limit_bound_and_exhaustion.2.1 sch0 [] env2w [pg2w] opts2w
      [⟨none, "/wiki/B", "B", none⟩] rfl (by decide) (by decide)

/-- C3 (confirmed): on a classic schema a successful run returns exactly the
records of the window `take limit (drop offset)` of the filtered listing stream,
so the first `offset` filtered entries never appear and records follow listing
order (pagination order, then document order); a failed run returns the empty
list; and on the concrete scenario — five entries, limit 2, offset 1 — the output
is the records of entries 2 and 3 (1-indexed), in order. -/
theorem c3_offset_window_order :
    (∀ (sch : ISchema) (bl : List String) (env : Env) (pages : List ListingPage)
       (opts : Options) (r : List IData), sch.pageFormat = PageFormat.classic →
       getAllE sch bl env pages opts = .ok r →
       getAll sch bl env pages opts = r ∧
         mapExcept (recordOf env sch.dataSource opts)
           (((streamF bl pages).drop opts.offset.toNat).take opts.limit.toNat) = .ok r) ∧
    (∀ (sch : ISchema) (bl : List String) (env : Env) (pages : List ListingPage)
       (opts : Options) (er : ScrapeError), getAllE sch bl env pages opts = .error er →
       getAll sch bl env pages opts = []) ∧
    getAll sch0 [] env3 [pg3] opts3
      = [⟨none, "/wiki/B", "B", none⟩, ⟨none, "/wiki/C", "C", none⟩] := by
  refine ⟨?_, ?_, by decide⟩
  · intro sch bl env pages opts r hf hE
    exact ⟨getAll_eq_of_ok hE, (getAllE_classic_ok hf hE).2.2.2⟩
  · intro sch bl env pages opts er hE
    exact getAll_eq_nil_of_error hE

/-- C3 witness: the window characterization applied at the scenario world. -/
theorem c3_offset_window_order_witness :
    mapExcept (recordOf env3 sch0.dataSource opts3)
      (((streamF [] [pg3]).drop opts3.offset.toNat).take opts3.limit.toNat)
      = .ok [⟨none, "/wiki/B", "B", none⟩, ⟨none, "/wiki/C", "C", none⟩] :=
  (c3_offset_window_order.1 sch0 [] env3 [pg3] opts3
    [⟨none, "/wiki/B", "B", none⟩, ⟨none, "/wiki/C", "C", none⟩] rfl (by decide)).2

/-- C4 (confirmed): an acted-upon listing entry (offset counter at or past the
threshold) whose element has a falsy href throws `No URL found`, and one with an
href but falsy text throws `No name found`; any error of the classic run is
swallowed by the top-level catch and `getAll` returns the empty collection,
discarding every previously accumulated record of the run. -/
theorem c4_malformed_entry_destroys_run :
    (∀ (env : Env) (ds : List (String × Option String)) (opts : Options)
       (es₁ es₂ : List Element) (e : Element) (off cnt : Int) (acc : List IData)
       (out : PEOut) (er : ScrapeError),
       processEntries env ds opts es₁ off cnt acc = .ok out → out.early = false →
       opts.offset ≤ out.off →
       ((falsy e.href = true ∧ er = ScrapeError.noUrl) ∨
        (falsy e.href = false ∧ e.text = "" ∧ er = ScrapeError.noName)) →
       processEntries env ds opts (es₁ ++ e :: es₂) off cnt acc = .error er) ∧
    (∀ (sch : ISchema) (bl : List String) (env : Env) (pages : List ListingPage)
       (opts : Options) (er : ScrapeError), getAllE sch bl env pages opts = .error er →
       getAll sch bl env pages opts = []) := by
  constructor
  · intro env ds opts es₁ es₂ e off cnt acc out er hpe hne hoff hcase
    rw [processEntries_append env ds opts es₁ (e :: es₂) off cnt acc, hpe]
    simp only [hne, Bool.false_eq_true, if_false]
    simp only [processEntries, if_pos hoff]
    rcases hcase with ⟨hu, rfl⟩ | ⟨hu, hn, rfl⟩
    · rw [recordOf_noUrl env ds opts hu]
    · rw [recordOf_noName env ds opts hu hn]
  · intro sch bl env pages opts er hE
    exact getAll_eq_nil_of_error hE

/-- C4 witness: after one good record has been accumulated, the malformed second
entry makes the page loop throw `No URL found`, and the concrete `getAll` run
returns the empty list. -/
theorem c4_malformed_entry_destroys_run_witness :
    processEntries env4 [] opts4 ([e4good] ++ e4bad :: []) 0 0 [] = .error ScrapeError.noUrl ∧
    getAll sch0 [] env4 [pg4] opts4 = [] ∧
    processEntries env4 [] opts4 [e4good] 0 0 [] = .ok ⟨1, 1, [rec4G], false⟩ := by
  refine ⟨?_, ?_, by decide⟩
  · exact c4_malformed_entry_destroys_run.1 env4 [] opts4 [e4good] [] e4bad 0 0 []
      ⟨1, 1, [rec4G], false⟩ ScrapeError.noUrl (by decide) rfl (by decide)
      (Or.inl ⟨by decide, rfl⟩)
  · exact c4_malformed_entry_destroys_run.2 sch0 [] env4 [pg4] opts4
      ScrapeError.noUrl (by decide)

/-- C5 (confirmed): with `recursive: false`, every record returned by `getAll`
carries an absent `data` field (none — distinguishable from an empty mapping). -/
theorem c5_data_absent_when_not_recursive :
    ∀ (sch : ISchema) (bl : List String) (env : Env) (pages : List ListingPage)
      (opts : Options) (rcd : IData), opts.recursive = false →
      rcd ∈ getAll sch bl env pages opts → rcd.data = none := by
  intro sch bl env pages opts rcd hrec hmem
  obtain ⟨e, hfe⟩ := getAll_mem_recordOf hmem
  exact (recordOf_ok_fields hfe).1 hrec

/-- C5 witness: the record of a concrete non-recursive run has `data = none`. -/
theorem c5_data_absent_when_not_recursive_witness :
    (⟨none, "/wiki/B", "B", none⟩ : IData).data = none :=
  c5_data_absent_when_not_recursive sch0 [] env2w [pg2w] opts2w
    ⟨none, "/wiki/B", "B", none⟩ rfl (by decide)

/-- C6 (confirmed, for the general text fields): when a non-images field's locator
finds nothing usable on the page (no data-source element, no pi-data-value
descendant, or empty text), `parseCharacterPage` behaves exactly as if the field
were not in the map — the extraction of every other field, and of the character,
is unchanged — and (keys being unique in the source's field-map interface) the
field's key is absent from the returned mapping. -/
theorem c6_missing_field_degrades :
    ∀ (env : Env) (opts : Options) (page : CharPage)
      (ds₁ ds₂ : List (String × Option String)) (key sk : String) (m : Obj),
      ¬ key = "images" → ¬ sk = "" → dsMiss page sk = true →
      (parseCharacterPage env opts (ds₁ ++ (key, some sk) :: ds₂) page
         = parseCharacterPage env opts (ds₁ ++ ds₂) page ∧
       (key ∉ (ds₁ ++ ds₂).map Prod.fst →
         parseCharacterPage env opts (ds₁ ++ ds₂) page = .ok m →
         alookup m key = none)) := by
  intro env opts page ds₁ ds₂ key sk m hk hsk hmiss
  constructor
  · unfold parseCharacterPage
    rw [parseFields_append env opts page ds₁ ((key, some sk) :: ds₂) [],
        parseFields_append env opts page ds₁ ds₂ []]
    cases h1 : parseFields env opts page ds₁ [] with
    | error er => rfl
    | ok m1 => exact parseFields_miss_cons env opts page hk hsk hmiss ds₂ m1
  · intro hnotin hok
    unfold parseCharacterPage at hok
    rw [parseFields_writes_only env opts page (ds₁ ++ ds₂) hnotin hok]
    rfl

/-- C6 witness: a missing `locX` locator leaves the two surrounding fields intact
and its key absent. -/
theorem c6_missing_field_degrades_witness :
    parseCharacterPage envEmpty opts2w
        ([("age", some "ageSrc")] ++ ("height", some "locX") :: [("kanji", some "kanjiSrc")])
        page6
      = parseCharacterPage envEmpty opts2w
        ([("age", some "ageSrc")] ++ [("kanji", some "kanjiSrc")]) page6 ∧
    alookup [("age", FieldValue.str "25"), ("kanji", FieldValue.str "Kira")] "height"
      = none := by
  have h := c6_missing_field_degrades envEmpty opts2w page6 [("age", some "ageSrc")]
    [("kanji", some "kanjiSrc")] "height" "locX"
    [("age", FieldValue.str "25"), ("kanji", FieldValue.str "Kira")]
    (by decide) (by decide) (by decide)
  exact ⟨h.1, h.2 (by decide) (by decide)⟩

/-- C7 (code bug): the spec says constructing with a fiction name missing from the
registry fails immediately with the unknown-site error.  `isValidConstructor` is a
placeholder that only tests the name for truthiness, so an unknown non-empty name
passes the guard and construction instead crashes reading a property of the
undefined `Schemas[name]` (a TypeError); only a falsy name triggers the intended
`Invalid wiki name` error, and a registered name constructs normally. -/
theorem c7_unknown_name_typeerror :
    isValidConstructor ⟨"naruto", none⟩ = true ∧
    mkScraper ⟨"naruto", none⟩ = .error ConstructError.typeErrorUndefined ∧
    mkScraper ⟨"", none⟩ = .error ConstructError.invalidWikiName ∧
    mkScraper ⟨"dragon-ball", none⟩ = .ok (some DragonBallEN) := by
  decide

/-- C8 counterexample: `c8page` contains a script matching `"pageId":42` — the
first pattern match over the page's script content is 42 — yet the computed id is
0, because the code takes the first script merely containing the substring
`pageId` (here one that does not match the full pattern) and applies the regex to
it alone; a record built from this page with `withId` carries id 0. -/
theorem c8_counterexample :
    c8page.scripts.findSome? (fun s => findPageId s.toList) = some 42 ∧
    pageIdOf c8page = 0 ∧
    recordOf env8c [] opts8 e8 = .ok ⟨some 0, "/wiki/X", "X", none⟩ := by
  decide

/-- C8 (amended): with `withId: false` no record carries an id; with `withId: true`
the record id is `extractPageId` of the first script whose text contains the
substring `pageId` — in particular, when no script of the page matches the
`"pageId":digits` pattern the id is 0 (not an error), but the id is also 0
whenever that first substring-matching script fails the full pattern, even if a
later script matches it. -/
theorem c8_pageid_rule :
    (∀ (sch : ISchema) (bl : List String) (env : Env) (pages : List ListingPage)
       (opts : Options) (rcd : IData), opts.withId = false →
       rcd ∈ getAll sch bl env pages opts → rcd.id = none) ∧
    (∀ page : CharPage, (∀ s ∈ page.scripts, findPageId s.toList = none) →
       pageIdOf page = 0) ∧
    (∀ (env : Env) (ds : List (String × Option String)) (opts : Options)
       (e : Element) (page : CharPage) (rcd : IData), opts.withId = true →
       env.fetchChar (e.href.getD "") = some page →
       recordOf env ds opts e = .ok rcd → rcd.id = some (pageIdOf page)) := by
  refine ⟨?_, ?_, ?_⟩
  · intro sch bl env pages opts rcd hw hmem
    obtain ⟨e, hfe⟩ := getAll_mem_recordOf hmem
    exact (recordOf_ok_fields hfe).2.1 hw
  · exact fun page h => pageIdOf_eq_zero h
  · intro env ds opts e page rcd hw hfc hok
    exact (recordOf_ok_fields hok).2.2 page hfc hw

/-- C8 witness: a concrete record built with `withId` from a page whose script
matches `"pageId":7` carries that id. -/
theorem c8_pageid_rule_witness :
    (⟨some 7, "/wiki/X", "X", none⟩ : IData).id = some (pageIdOf page8) :=
  c8_pageid_rule.2.2 env8 [] opts8 e8 page8 ⟨some 7, "/wiki/X", "X", none⟩
    rfl (by decide) (by decide)

/-- C9 (confirmed): an element survives `filterBannedElement` exactly when its
lower-cased text contains none of the lower-cased banned substrings (both sides
lower-cased, hence case-insensitive on both sides); and the classic loop run on
pre-filtered pages is the very same computation as on the raw pages, so banned
entries are invisible to the offset/limit bookkeeping — they never advance the
offset counter. -/
theorem c9_ban_filter_before_offset :
    (∀ (es : List Element) (bl : List String) (e : Element),
       e ∈ filterBannedElement es bl ↔
         (e ∈ es ∧ ∀ b ∈ bl, strIncludes (strToLower e.text) (strToLower b) = false)) ∧
    (∀ (env : Env) (ds : List (String × Option String)) (bl : List String)
       (opts : Options) (pages : List ListingPage) (off cnt : Int) (acc : List IData),
       loopClassic env ds bl opts
         (pages.map fun p => ⟨filterBannedElement p.entries bl, p.next⟩) off cnt acc
         = loopClassic env ds bl opts pages off cnt acc) :=
  ⟨filterBannedElement_mem, loopClassic_prefiltered⟩

/-- C9 witness: `Goku` survives the filter against the ban word `admin` (while the
`Admin Stuff` entry is case-insensitively banned). -/
theorem c9_ban_filter_before_offset_witness :
    e9ok ∈ filterBannedElement [e9ban, e9ok] ["admin"] :=
  (c9_ban_filter_before_offset.1 [e9ban, e9ok] ["admin"] e9ok).mpr
    ⟨by decide, by decide⟩

/-- C10 counterexample: on `page10` the images locator `imgcls` also matches a
data-source row whose pi-data-value text is `Override[1]`; the images branch binds
`images` to the one-element list, but the missing early continue lets the general
extraction overwrite it with the cleaned string — the key ends up bound to a
string, not a list, refuting "always contains the images key bound to a list". -/
theorem c10_counterexample :
    parseCharacterPage envEmpty opts10 [("images", some "imgcls")] page10
      = .ok [("images", FieldValue.str "Override")] ∧
    (∀ l : List String, FieldValue.str "Override" ≠ FieldValue.images l) := by
  refine ⟨by decide, ?_⟩
  intro l h
  cases h

/-- C10 (amended): when the field map has an `images` entry with a non-empty
locator (and no later entry shares the key), every successful
`parseCharacterPage` result contains the `images` key; it is bound to the
(possibly empty) collected image list whenever the general data-source extraction
finds nothing usable for that locator, and only a non-empty pi-data-value text
for the same locator can overwrite it (with a string) via the fall-through. -/
theorem c10_images_key_present :
    ∀ (env : Env) (opts : Options) (page : CharPage)
      (ds₁ ds₂ : List (String × Option String)) (sk : String) (m : Obj),
      ¬ sk = "" → "images" ∉ ds₂.map Prod.fst →
      parseCharacterPage env opts (ds₁ ++ ("images", some sk) :: ds₂) page = .ok m →
      ((alookup m "images").isSome = true ∧
       (dsMiss page sk = true →
         ∃ imgs, collectImages env opts (classLookup page sk) = .ok imgs ∧
           alookup m "images" = some (FieldValue.images imgs))) := by
  intro env opts page ds₁ ds₂ sk m hsk hn2 hok
  unfold parseCharacterPage at hok
  rw [parseFields_append env opts page ds₁ (("images", some sk) :: ds₂) []] at hok
  cases h1 : parseFields env opts page ds₁ [] with
  | error er => simp only [h1] at hok; simp at hok
  | ok m1 =>
    simp only [h1] at hok
    simp only [parseFields] at hok
    rw [if_neg (by simp [falsy, hsk] : ¬ falsy (some sk) = true)] at hok
    simp only [Option.getD_some] at hok
    cases hci : collectImages env opts (classLookup page sk) with
    | error er =>
      rw [show parseFieldStep env opts page "images" sk m1 = .error er by
            simp [parseFieldStep, hci]] at hok
      simp at hok
    | ok imgs =>
      rw [show parseFieldStep env opts page "images" sk m1
            = .ok (objSet m1 "images" (.images imgs)) by
            simp [parseFieldStep, hci]] at hok
      cases hds : alookup page.dataSrc sk with
      | none =>
        simp only [hds] at hok
        have hpres := parseFields_writes_only env opts page ds₂ hn2 hok
        rw [alookup_objSet, if_pos rfl] at hpres
        exact ⟨by simp [hpres], fun _ => ⟨imgs, rfl, hpres⟩⟩
      | some vo =>
        cases vo with
        | none =>
          simp only [hds] at hok
          have hpres := parseFields_writes_only env opts page ds₂ hn2 hok
          rw [alookup_objSet, if_pos rfl] at hpres
          exact ⟨by simp [hpres], fun _ => ⟨imgs, rfl, hpres⟩⟩
        | some v =>
          by_cases hv : v = ""
          · simp only [hds, if_pos hv] at hok
            have hpres := parseFields_writes_only env opts page ds₂ hn2 hok
            rw [alookup_objSet, if_pos rfl] at hpres
            exact ⟨by simp [hpres], fun _ => ⟨imgs, rfl, hpres⟩⟩
          · simp only [hds, if_neg hv] at hok
            have hpres := parseFields_writes_only env opts page ds₂ hn2 hok
            rw [alookup_objSet, if_pos rfl] at hpres
            refine ⟨by simp [hpres], fun hm2 => ?_⟩
            exfalso
            unfold dsMiss at hm2
            rw [hds] at hm2
            simp only [decide_eq_true_eq] at hm2
            exact hv hm2

/-- C10 witness: with locator `nocls` matching nothing on an empty page, the
result still contains the `images` key. -/
theorem c10_images_key_present_witness :
    (alookup [("images", FieldValue.images [])] "images").isSome = true :=
  (c10_images_key_present envEmpty opts10 cp0 [] [] "nocls"
    [("images", FieldValue.images [])] (by decide) (by decide) (by decide)).1

end FandomScraper
